import Mathlib

/-!
Shallow embedding of the arthantar knowledge-graph pipeline
(`src/utils/graph.py`, `src/utils/translator.py`).

External services (coreference engine, completion service, graph
transformer, syntactic parser) are modelled as oracle functions returning
`Except String _`; an `Except.error` models the Python call raising.
Python character predicates (`isupper`, `lower`) are modelled with Lean's
ASCII `Char` predicates.
-/

/-- Python exceptions are modelled as `Except String`. -/
abbrev PyM := Except String

/-- Python `s.lower()` (ASCII model, structural recursion so that concrete
calls reduce inside the kernel). -/
def lowerStr (s : String) : String :=
  String.mk (s.data.map Char.toLower)

/-- Python `s.upper()` (ASCII model). -/
def upperStr (s : String) : String :=
  String.mk (s.data.map Char.toUpper)

/-- Python `s.strip()`: drop leading and trailing whitespace. -/
def trimStr (s : String) : String :=
  String.mk (((s.data.dropWhile Char.isWhitespace).reverse.dropWhile
    Char.isWhitespace).reverse)

/-- Python `w[0].isupper()`: true iff the string is non-empty and its first
character is upper-case (`w[0]` on the empty string raises, handled at the
call sites that can see an empty string). -/
def headIsUpper (w : String) : Bool :=
  match w.toList with
  | c :: _ => c.isUpper
  | [] => false

/-- Character-list prefix test. -/
def isPrefixB : List Char → List Char → Bool
  | [], _ => true
  | _ :: _, [] => false
  | a :: as, b :: bs => a == b && isPrefixB as bs

/-- Character-list substring occurrence test. -/
def isInfixB (p : List Char) : List Char → Bool
  | [] => p.isEmpty
  | b :: t => isPrefixB p (b :: t) || isInfixB p t

/-- Python `a in b` on strings: substring test. -/
def strIn (a b : String) : Bool :=
  isInfixB a.data b.data

/-- The accumulator loop behind `text.split()`. -/
def splitWsAux : List Char → List Char → List String
  | [], acc => if acc.isEmpty then [] else [String.mk acc.reverse]
  | c :: rest, acc =>
    if c.isWhitespace then
      if acc.isEmpty then splitWsAux rest []
      else String.mk acc.reverse :: splitWsAux rest []
    else splitWsAux rest (c :: acc)

/-- Python `text.split()`: split on whitespace runs, no empty pieces. -/
def pySplitWs (text : String) : List String :=
  splitWsAux text.data []

/-! ## Gender map (Python `dict` from mention string to gender string) -/

/-- A Python dict of strings, as an insertion-ordered association list with
unique keys. -/
abbrev GenderMap := List (String × String)

/-- Python `d[k] = v`: update the existing binding in place, else append. -/
def dictInsert (k v : String) : GenderMap → GenderMap
  | [] => [(k, v)]
  | (k', v') :: rest =>
    if k' == k then (k, v) :: rest else (k', v') :: dictInsert k v rest

/-- Python `d.get(k)` / `k in d` + `d[k]`. -/
def lookupGM (gm : GenderMap) (k : String) : Option String :=
  (gm.find? (fun p => p.1 == k)).map Prod.snd

/-! ## `KnowledgeGraphGenerator.identify_genders_coref` -/

/-- The fixed male pronoun set of `identify_genders_coref`. -/
def malePronouns : List String := ["he", "him", "his"]

/-- The fixed female pronoun set of `identify_genders_coref`. -/
def femalePronouns : List String := ["she", "her", "hers"]

/-- Cluster decision rule: male pronouns and not female ones gives `male`,
the symmetric case gives `female`, otherwise the cluster is skipped. -/
def clusterGender (cluster : List String) : Option String :=
  let lowers := cluster.map lowerStr
  let hasMale := lowers.any (fun w => malePronouns.contains w)
  let hasFemale := lowers.any (fun w => femalePronouns.contains w)
  if hasMale && !hasFemale then some "male"
  else if hasFemale && !hasMale then some "female"
  else none

/-- The inner entity loop of `identify_genders_coref`: assign `g` to every
non-pronoun mention whose first character is upper-case.  Python evaluates
`entity[0]` only after the two pronoun checks succeed; on an empty mention
it raises `IndexError`, carrying the map built so far to the handler. -/
def assignCluster (g : String) : List String → GenderMap → Except GenderMap GenderMap
  | [], m => .ok m
  | entity :: rest, m =>
    if !(malePronouns.contains (lowerStr entity)) &&
       !(femalePronouns.contains (lowerStr entity)) then
      match entity.toList with
      | [] => .error m
      | c :: _ =>
        assignCluster g rest (if c.isUpper then dictInsert entity g m else m)
    else
      assignCluster g rest m

/-- The outer cluster loop of `identify_genders_coref`. -/
def processClusters : List (List String) → GenderMap → Except GenderMap GenderMap
  | [], m => .ok m
  | cluster :: rest, m =>
    match clusterGender cluster with
    | none => processClusters rest m
    | some g =>
      match assignCluster g cluster m with
      | .ok m' => processClusters rest m'
      | .error m' => .error m'

/-- `KnowledgeGraphGenerator.identify_genders_coref`.  The coreference
engine (`FCoref.predict` plus `get_clusters`) is the oracle `corefPredict`;
the surrounding `try`/`except` turns any failure into the map accumulated
so far (the empty map when the engine call itself raises). -/
def identify_genders_coref
    (corefPredict : String → Except String (List (List String)))
    (text : String) : GenderMap :=
  match corefPredict text with
  | .error _ => []
  | .ok clusters =>
    match processClusters clusters [] with
    | .ok m => m
    | .error m => m

/-! ## `KnowledgeGraphGenerator.identify_gender_llm` -/

/-- The closed gender vocabulary. -/
def genderVocab : List String := ["male", "female", "unknown"]

/-- The single-shot gender prompt sent to the completion service. -/
def genderPrompt (entity entityType : String) : String :=
  "\n            Analyze the entity name \x27" ++ entity ++ "\x27 with type \x27" ++
  entityType ++ "\x27.\n            If it\x27s a person, determine their likely gender based on context.\n            Respond with exactly one word: \x27male\x27, \x27female\x27, or \x27unknown\x27.\n            For non-person entities, always respond with \x27unknown\x27.\n            "

/-- `KnowledgeGraphGenerator.identify_gender_llm`: coreference map first,
then the non-person short-circuit, then one completion call whose response
is lower-cased, trimmed and coerced into `genderVocab`; a raising
completion service yields `unknown`. -/
def identify_gender_llm (llmPredict : String → Except String String)
    (entity entityType : String) (gender_map : GenderMap) : String :=
  match lookupGM gender_map entity with
  | some g => g
  | none =>
    if lowerStr entityType ≠ "person" then "unknown"
    else
      match llmPredict (genderPrompt entity entityType) with
      | .error _ => "unknown"
      | .ok response =>
        let gender := trimStr (lowerStr response)
        if genderVocab.contains gender then gender else "unknown"

/-! ## `networkx.DiGraph`, restricted to the attributes this code uses -/

/-- Node attributes.  `add_edge` inserts missing endpoints with an empty
attribute dict, so both attributes are optional; reading a missing one
(`G.nodes[n]['type']`) raises `KeyError`.  The free-form `properties`
attribute set by the primary path is never read back and is omitted. -/
structure NodeAttrs where
  type? : Option String
  gender? : Option String
deriving Repr, DecidableEq

/-- A directed graph: insertion-ordered node map (unique keys) and an
insertion-ordered edge map keyed by (source, target), value the edge
`type` attribute (`properties` again omitted, never read back). -/
structure DiGraph where
  nodes : List (String × NodeAttrs)
  edges : List (String × String × String)
deriving Repr, DecidableEq

def DiGraph.empty : DiGraph := ⟨[], []⟩

/-- Update the binding for `k` in place, else append (Python dict). -/
def updateNode (k : String) (v : NodeAttrs) :
    List (String × NodeAttrs) → List (String × NodeAttrs)
  | [] => [(k, v)]
  | (k', v') :: rest =>
    if k' == k then (k, v) :: rest else (k', v') :: updateNode k v rest

/-- `G.add_node(id, ...)` with a full attribute set (every call site passes
both `type` and `gender`, so dict update equals replacement). -/
def DiGraph.addNode (G : DiGraph) (id : String) (a : NodeAttrs) : DiGraph :=
  { G with nodes := updateNode id a G.nodes }

def DiGraph.hasNode (G : DiGraph) (x : String) : Bool :=
  G.nodes.any (fun p => p.1 == x)

/-- `add_edge` adds a missing endpoint as a node with no attributes. -/
def DiGraph.ensureNode (G : DiGraph) (x : String) : DiGraph :=
  if G.hasNode x then G else { G with nodes := G.nodes ++ [(x, ⟨none, none⟩)] }

/-- Update the edge keyed (u, v) in place, else append. -/
def updateEdge (u v ty : String) :
    List (String × String × String) → List (String × String × String)
  | [] => [(u, v, ty)]
  | (u', v', ty') :: rest =>
    if u' == u && v' == v then (u, v, ty) :: rest
    else (u', v', ty') :: updateEdge u v ty rest

/-- `G.add_edge(u, v, type=ty)`. -/
def DiGraph.addEdge (G : DiGraph) (u v ty : String) : DiGraph :=
  let G := (G.ensureNode u).ensureNode v
  { G with edges := updateEdge u v ty G.edges }

/-- `G.has_edge(u, v)`. -/
def DiGraph.hasEdge (G : DiGraph) (u v : String) : Bool :=
  G.edges.any (fun e => e.1 == u && e.2.1 == v)

/-! ## The public graph shape -/

structure NodeOut where
  id : String
  type : String
  gender : String
deriving Repr, DecidableEq

structure RelOut where
  source : String
  target : String
  type : String
deriving Repr, DecidableEq

/-- The canonical public graph dictionary. -/
structure GraphOut where
  nodes : List NodeOut
  relationships : List RelOut
deriving Repr, DecidableEq

/-- The node list comprehension shared by the primary and syntactic paths:
`{'id': n, 'type': G.nodes[n]['type'], 'gender': G.nodes[n]['gender']}`;
a missing attribute raises `KeyError`. -/
def serializeNodes : List (String × NodeAttrs) → PyM (List NodeOut)
  | [] => .ok []
  | (id, a) :: rest =>
    match a.type?, a.gender? with
    | some t, some g =>
      match serializeNodes rest with
      | .ok outs => .ok (⟨id, t, g⟩ :: outs)
      | .error e => .error e
    | _, _ => .error "KeyError"

/-- The relationship list comprehension (total: `type` is always set). -/
def serializeRels (edges : List (String × String × String)) : List RelOut :=
  edges.map (fun e => ⟨e.1, e.2.1, e.2.2⟩)

/-- The return dict of `create_graph_from_text` / `_create_basic_graph`. -/
def serializeGraph (G : DiGraph) : PyM GraphOut :=
  match serializeNodes G.nodes with
  | .ok outs => .ok ⟨outs, serializeRels G.edges⟩
  | .error e => .error e

/-- The return dict of the capitalized-word fallback: `type` is the literal
`'Entity'` and only `gender` is read from the node attributes. -/
def serializeNodesBasicFallback : List (String × NodeAttrs) → PyM (List NodeOut)
  | [] => .ok []
  | (id, a) :: rest =>
    match a.gender? with
    | some g =>
      match serializeNodesBasicFallback rest with
      | .ok outs => .ok (⟨id, "Entity", g⟩ :: outs)
      | .error e => .error e
    | none => .error "KeyError"

/-! ## External service oracles -/

/-- A node of an `LLMGraphTransformer` graph document. -/
structure TNode where
  id : String
  type : String
deriving Repr, DecidableEq

/-- A relationship of a graph document. -/
structure TRel where
  source : String
  target : String
  type : String
deriving Repr, DecidableEq

/-- A graph document returned by the graph-transformation service. -/
structure GraphDoc where
  nodes : List TNode
  relationships : List TRel
deriving Repr, DecidableEq

/-- A spaCy named entity (`ent.text`, `ent.start_char`, `ent.end_char`,
`ent.label_`). -/
structure SpacyEnt where
  text : String
  start_char : Nat
  end_char : Nat
  label : String
deriving Repr, DecidableEq

/-- A spaCy token: its text, dependency role, and its head token's doc-wide
index and text (`token.head == token2.head` is object identity, modelled by
equality of head indices). -/
structure SpacyToken where
  text : String
  dep : String
  headIdx : Nat
  headText : String
deriving Repr, DecidableEq

/-- A spaCy sentence. -/
structure SpacySent where
  tokens : List SpacyToken
deriving Repr, DecidableEq

/-- A parsed spaCy document. -/
structure SpacyDoc where
  ents : List SpacyEnt
  sents : List SpacySent
deriving Repr, DecidableEq

/-- The four external services, each as an oracle on the request text; an
`Except.error` result models the underlying call raising. -/
structure Services where
  corefPredict : String → Except String (List (List String))
  llmPredict : String → Except String String
  transform : String → Except String (Option GraphDoc)
  spacyParse : String → Except String SpacyDoc

/-! ## Primary path (`create_graph_from_text`, LLM graph transformer) -/

/-- The node and relationship loops of the primary path: each document
node is added with its type and a gender resolved by
`identify_gender_llm`; each relationship is added as an edge (implicitly
inserting attribute-less endpoint nodes when absent). -/
def buildPrimaryGraph (llmPredict : String → Except String String)
    (doc : GraphDoc) (gm : GenderMap) : DiGraph :=
  let G := doc.nodes.foldl
    (fun G n =>
      G.addNode n.id ⟨some n.type, some (identify_gender_llm llmPredict n.id n.type gm)⟩)
    DiGraph.empty
  doc.relationships.foldl (fun G r => G.addEdge r.source r.target r.type) G

/-! ## Secondary path (`_create_basic_graph`, spaCy NER + dependencies) -/

/-- The NER labels kept by the entity-collection pass. -/
def validLabels : List String := ["PERSON", "ORG", "GPE", "NORP", "FAC"]

/-- Python `entities.add(x)`, the set modelled as an insertion-ordered
duplicate-free list. -/
def insertNew (x : String) (l : List String) : List String :=
  if l.contains x then l else l ++ [x]

/-- Python `entity_mentions[clean_ent].append(mention)` (creating the empty
list first when the key is new). -/
def appendMention (k : String) (m : SpacyEnt) :
    List (String × List SpacyEnt) → List (String × List SpacyEnt)
  | [] => [(k, [m])]
  | (k', ms) :: rest =>
    if k' == k then (k', ms ++ [m]) :: rest else (k', ms) :: appendMention k m rest

/-- The first pass of `_create_basic_graph`: collect trimmed entity
surface strings with a kept label, and all their mentions. -/
def collectEntities (ents : List SpacyEnt) :
    List String × List (String × List SpacyEnt) :=
  ents.foldl
    (fun acc ent =>
      if validLabels.contains ent.label then
        (insertNew (trimStr ent.text) acc.1, appendMention (trimStr ent.text) ent acc.2)
      else acc)
    ([], [])

/-- Node type resolution: default `'Entity'`, else the label of the first
recorded mention. -/
def entityTypeFor (entity_mentions : List (String × List SpacyEnt))
    (entity : String) : String :=
  match (entity_mentions.find? (fun p => p.1 == entity)).map Prod.snd with
  | some (m :: _) => m.label
  | some [] => "Entity"
  | none => "Entity"

/-- The node loop of `_create_basic_graph`: gender from the coreference
map when present, else from `identify_gender_llm`. -/
def addBasicNodes (llmPredict : String → Except String String)
    (entities : List String) (entity_mentions : List (String × List SpacyEnt))
    (gm : GenderMap) (G : DiGraph) : DiGraph :=
  entities.foldl
    (fun G entity =>
      let entity_type := entityTypeFor entity_mentions entity
      let gender :=
        match lookupGM gm entity with
        | some g => g
        | none => identify_gender_llm llmPredict entity entity_type gm
      G.addNode entity ⟨some entity_type, some gender⟩)
    G

/-- The dependency roles that start a relationship candidate. -/
def depRoles : List String := ["nsubj", "nsubjpass", "dobj", "pobj"]

/-- `for ent in entities: if dep in ent or ent in dep: target = ent; break`. -/
def findTargetEntity (entities : List String) (dep : String) : Option String :=
  entities.find? (fun ent => strIn dep ent || strIn ent dep)

/-- The source-entity scan: every token of the sentence is visited (the
inner `break` leaves only the entity loop), so the last qualifying token
that overlaps an entity wins, and a qualifying token with no overlapping
entity leaves the previous value in place. -/
def findSourceEntity (entities : List String) (toks : List SpacyToken)
    (hIdx : Nat) : Option String :=
  toks.foldl
    (fun acc t2 =>
      if t2.dep == "nsubj" && t2.headIdx == hIdx then
        match entities.find? (fun ent => strIn t2.text ent || strIn ent t2.text) with
        | some e => some e
        | none => acc
      else acc)
    none

/-- The relationship-extraction loops of `_create_basic_graph`.  The added
edge is `source --[REL_<head text upper-cased>]--> target`; Python's `if
source_entity and target_entity` is string truthiness, so an empty-string
entity never yields an edge. -/
def extractRelations (entities : List String) (sents : List SpacySent)
    (G : DiGraph) : DiGraph :=
  sents.foldl
    (fun G sent =>
      sent.tokens.foldl
        (fun G token =>
          if depRoles.contains token.dep then
            match findSourceEntity entities sent.tokens token.headIdx,
                  findTargetEntity entities token.text with
            | some s, some t =>
              if s ≠ "" ∧ t ≠ "" ∧ s ≠ t then
                G.addEdge s t ("REL_" ++ upperStr token.headText)
              else G
            | _, _ => G
          else G)
        G)
    G

/-- The chaining loop of the density backstop: for each consecutive pair
without a direct edge, add a generic `RELATED_TO` edge. -/
def chainPairs (G : DiGraph) : List String → DiGraph
  | a :: b :: rest =>
    chainPairs (if G.hasEdge a b then G else G.addEdge a b "RELATED_TO") (b :: rest)
  | _ => G

/-- The density backstop: fires when the edges found so far number fewer
than (entity count − 1), integer arithmetic as in Python. -/
def addBackstop (entities : List String) (G : DiGraph) : DiGraph :=
  if (G.edges.length : Int) < (entities.length : Int) - 1 then
    chainPairs G entities
  else G

/-- The body of `_create_basic_graph`'s `try` block. -/
def basicGraphBody (svc : Services) (text : String) (gm : GenderMap) :
    PyM GraphOut :=
  match svc.spacyParse text with
  | .error e => .error e
  | .ok doc =>
    let em := collectEntities doc.ents
    let G := addBasicNodes svc.llmPredict em.1 em.2 gm DiGraph.empty
    let G := extractRelations em.1 doc.sents G
    let G := addBackstop em.1 G
    serializeGraph G

/-! ## Tertiary path (capitalized-word fallback) -/

/-- `[w for w in text.split() if w[0].isupper()]` (`text.split()` never
yields an empty piece, so `w[0]` cannot raise here). -/
def capWords (text : String) : List String :=
  (pySplitWs text).filter headIsUpper

/-- `for i in range(len(words) - 1): G.add_edge(words[i], words[i+1],
type='RELATED_TO')` (no existence check, unlike the backstop). -/
def chainAllPairs (G : DiGraph) : List String → DiGraph
  | a :: b :: rest => chainAllPairs (G.addEdge a b "RELATED_TO") (b :: rest)
  | _ => G

/-- The fallback graph: one `'Entity'` node per capitalized word with
gender `gender_map.get(word, 'unknown')`, consecutive words chained with
`RELATED_TO` edges. -/
def buildFallbackGraph (text : String) (gm : GenderMap) : DiGraph :=
  let words := capWords text
  let G := words.foldl
    (fun G w => G.addNode w ⟨some "Entity", some ((lookupGM gm w).getD "unknown")⟩)
    DiGraph.empty
  chainAllPairs G words

/-- The fallback branch of `_create_basic_graph`'s `except` handler.  It
runs outside any `try`, so its (unreachable) `KeyError` would propagate. -/
def basicFallback (text : String) (gm : GenderMap) : PyM GraphOut :=
  let G := buildFallbackGraph text gm
  match serializeNodesBasicFallback G.nodes with
  | .ok outs => .ok ⟨outs, serializeRels G.edges⟩
  | .error e => .error e

/-- `KnowledgeGraphGenerator._create_basic_graph`: the spaCy body with the
capitalized-word fallback as its exception handler. -/
def create_basic_graph (svc : Services) (text : String) (gm : GenderMap) :
    PyM GraphOut :=
  match basicGraphBody svc text gm with
  | .ok g => .ok g
  | .error _ => basicFallback text gm

/-! ## Top level (`create_graph_from_text`) -/

/-- `KnowledgeGraphGenerator.create_graph_from_text`.  The gender map is
computed once up front (`identify_genders_coref` is total, so hoisting it
out of the `try` preserves the semantics); the primary attempt falls back
to `_create_basic_graph` on an empty/shapeless transformer result or on
any exception. -/
def create_graph_from_text (svc : Services) (text : String) : PyM GraphOut :=
  let gm := identify_genders_coref svc.corefPredict text
  let attempt : PyM GraphOut :=
    match svc.transform text with
    | .error e => .error e
    | .ok none => create_basic_graph svc text gm
    | .ok (some doc) => serializeGraph (buildPrimaryGraph svc.llmPredict doc gm)
  match attempt with
  | .ok g => .ok g
  | .error _ => create_basic_graph svc text gm

/-! ## Translation prompt builder (`translator.py`) -/

/-- A chat message. -/
structure Prompt where
  role : String
  content : String
deriving Repr, DecidableEq

/-- `EnhancedKnowledgeGraphGenerator.generate_translation_prompt`. -/
def generate_translation_prompt (sample_text : String) (kg : GraphOut)
    (target_lang : String) : Prompt :=
  let node_metadata := String.intercalate ", "
    (kg.nodes.map (fun n =>
      n.id ++ " (Type: " ++ n.type ++ ", Gender: " ++ n.gender ++ ")"))
  let relationship_metadata := String.intercalate ", "
    (kg.relationships.map (fun r =>
      r.source ++ " --[" ++ r.type ++ "]--> " ++ r.target))
  let metadata := "Knowledge Graph Structure: Nodes: " ++ node_metadata ++
    ". Relationships: " ++ relationship_metadata ++ "."
  { role := "user"
    content :=
      "Translate to " ++ target_lang ++
      " (use native script) using only the gender and relationship context " ++
      "of entities from metadata; reply with only the translated text: " ++
      sample_text ++ " " ++ "Meta data: " ++ metadata ++ " " }

/-! ## Proof infrastructure: fold and association-list lemmas -/

theorem foldl_preserve {α β : Type} {P : β → Prop} {f : β → α → β}
    (h : ∀ b a, P b → P (f b a)) :
    ∀ (l : List α) (b : β), P b → P (l.foldl f b) := by
  intro l
  induction l with
  | nil => intro b hb; simpa using hb
  | cons a rest ih => intro b hb; simpa using ih (f b a) (h b a hb)

theorem mem_updateNode {k : String} {v : NodeAttrs} :
    ∀ {l : List (String × NodeAttrs)} {p}, p ∈ updateNode k v l → p = (k, v) ∨ p ∈ l := by
  intro l
  induction l with
  | nil => intro p hp; simp [updateNode] at hp; exact Or.inl hp
  | cons q rest ih =>
    intro p hp
    simp only [updateNode] at hp
    by_cases hk : q.1 == k
    · simp [hk] at hp
      rcases hp with h | h
      · exact Or.inl (by simp [h])
      · exact Or.inr (List.mem_cons_of_mem _ h)
    · simp [hk] at hp
      rcases hp with h | h
      · exact Or.inr (by simp [h])
      · rcases ih h with h' | h'
        · exact Or.inl h'
        · exact Or.inr (List.mem_cons_of_mem _ h')

/-- The key written by `updateNode` is bound afterwards. -/
theorem updateNode_mem_self {k : String} {v : NodeAttrs} :
    ∀ l : List (String × NodeAttrs), (k, v) ∈ updateNode k v l := by
  intro l
  induction l with
  | nil => simp [updateNode]
  | cons q rest ih =>
    simp only [updateNode]
    by_cases hk : q.1 == k
    · simp [hk]
    · simp [hk]; exact Or.inr ih

/-- Keys survive `updateNode`. -/
theorem keys_updateNode {k : String} {v : NodeAttrs} {x : String} :
    ∀ {l : List (String × NodeAttrs)}, (∃ a, (x, a) ∈ l) →
      ∃ a, (x, a) ∈ updateNode k v l := by
  intro l
  induction l with
  | nil => rintro ⟨a, ha⟩; simp at ha
  | cons q rest ih =>
    rintro ⟨a, ha⟩
    simp only [updateNode]
    by_cases hk : q.1 == k
    · rcases List.mem_cons.mp ha with h | h
      · refine ⟨v, ?_⟩
        have : x = q.1 := by rw [← h]
        simp [hk, this, (by simpa using hk : q.1 = k)]
      · exact ⟨a, by simp [hk]; exact Or.inr h⟩
    · rcases List.mem_cons.mp ha with h | h
      · exact ⟨a, by simp [hk]; exact Or.inl (by simp [h])⟩
      · rcases ih ⟨a, h⟩ with ⟨b, hb⟩
        exact ⟨b, by simp [hk]; exact Or.inr hb⟩

theorem mem_updateEdge {u v ty : String} :
    ∀ {l : List (String × String × String)} {e},
      e ∈ updateEdge u v ty l → e = (u, v, ty) ∨ e ∈ l := by
  intro l
  induction l with
  | nil => intro e he; simp [updateEdge] at he; exact Or.inl he
  | cons q rest ih =>
    intro e he
    simp only [updateEdge] at he
    by_cases hk : q.1 == u && q.2.1 == v
    · simp [hk] at he
      rcases he with h | h
      · exact Or.inl (by simp [h])
      · exact Or.inr (List.mem_cons_of_mem _ h)
    · simp [hk] at he
      rcases he with h | h
      · exact Or.inr (by simp [h])
      · rcases ih h with h' | h'
        · exact Or.inl h'
        · exact Or.inr (List.mem_cons_of_mem _ h')

/-- The edge written by `updateEdge` is present afterwards. -/
theorem updateEdge_mem_self {u v ty : String} :
    ∀ l : List (String × String × String), (u, v, ty) ∈ updateEdge u v ty l := by
  intro l
  induction l with
  | nil => simp [updateEdge]
  | cons q rest ih =>
    simp only [updateEdge]
    by_cases hk : q.1 == u && q.2.1 == v
    · simp [hk]
    · simp [hk]; exact Or.inr ih

/-- Edges with a different (source, target) key survive `updateEdge`. -/
theorem mem_updateEdge_of_ne {u v ty : String} {e : String × String × String}
    (hne : ¬(e.1 = u ∧ e.2.1 = v)) :
    ∀ {l : List (String × String × String)}, e ∈ l → e ∈ updateEdge u v ty l := by
  intro l
  induction l with
  | nil => intro h; simp at h
  | cons q rest ih =>
    intro h
    simp only [updateEdge]
    by_cases hk : q.1 == u && q.2.1 == v
    · rcases List.mem_cons.mp h with h' | h'
      · exfalso
        apply hne
        subst h'
        simpa using hk
      · simp [hk]; exact Or.inr h'
    · rcases List.mem_cons.mp h with h' | h'
      · simp [hk]; exact Or.inl (by simp [h'])
      · simp [hk]; exact Or.inr (ih h')

/-! ## DiGraph invariants and preservation lemmas -/

/-- Every edge's endpoints are bound node keys. -/
def EdgesClosed (G : DiGraph) : Prop :=
  ∀ e ∈ G.edges, G.hasNode e.1 = true ∧ G.hasNode e.2.1 = true

/-- No edge is a self-loop. -/
def EdgesDistinct (G : DiGraph) : Prop :=
  ∀ e ∈ G.edges, e.1 ≠ e.2.1

/-- Every node's set gender attribute satisfies `P`. -/
def NodesOk (P : String → String → Prop) (G : DiGraph) : Prop :=
  ∀ p ∈ G.nodes, ∀ g, p.2.gender? = some g → P p.1 g

theorem hasNode_iff {G : DiGraph} {x : String} :
    G.hasNode x = true ↔ ∃ a, (x, a) ∈ G.nodes := by
  simp only [DiGraph.hasNode, List.any_eq_true, beq_iff_eq]
  constructor
  · rintro ⟨p, hp, he⟩; exact ⟨p.2, by rwa [← he]⟩
  · rintro ⟨a, ha⟩; exact ⟨(x, a), ha, rfl⟩

theorem hasNode_addNode {G : DiGraph} {k x : String} {a : NodeAttrs}
    (h : G.hasNode x = true) : (G.addNode k a).hasNode x = true := by
  rw [hasNode_iff] at h ⊢
  exact keys_updateNode h

theorem hasNode_ensureNode {G : DiGraph} {k x : String}
    (h : G.hasNode x = true) : (G.ensureNode k).hasNode x = true := by
  unfold DiGraph.ensureNode
  by_cases hk : G.hasNode k
  · simpa [hk]
  · rw [hasNode_iff] at h ⊢
    rcases h with ⟨a, ha⟩
    exact ⟨a, by simp [hk]; exact Or.inl ha⟩

theorem hasNode_ensureNode_self {G : DiGraph} {k : String} :
    (G.ensureNode k).hasNode k = true := by
  unfold DiGraph.ensureNode
  by_cases hk : G.hasNode k
  · simp [hk]
  · rw [hasNode_iff]
    exact ⟨⟨none, none⟩, by simp [hk]⟩

theorem hasNode_addEdge {G : DiGraph} {u v ty x : String}
    (h : G.hasNode x = true) : (G.addEdge u v ty).hasNode x = true := by
  unfold DiGraph.addEdge
  have h1 : ((G.ensureNode u).ensureNode v).hasNode x = true :=
    hasNode_ensureNode (hasNode_ensureNode h)
  rw [hasNode_iff] at h1 ⊢
  exact h1

theorem hasNode_addEdge_left {G : DiGraph} {u v ty : String} :
    (G.addEdge u v ty).hasNode u = true := by
  unfold DiGraph.addEdge
  have h1 : ((G.ensureNode u).ensureNode v).hasNode u = true :=
    hasNode_ensureNode hasNode_ensureNode_self
  rw [hasNode_iff] at h1 ⊢
  exact h1

theorem hasNode_addEdge_right {G : DiGraph} {u v ty : String} :
    (G.addEdge u v ty).hasNode v = true := by
  unfold DiGraph.addEdge
  have h1 : ((G.ensureNode u).ensureNode v).hasNode v = true :=
    hasNode_ensureNode_self
  rw [hasNode_iff] at h1 ⊢
  exact h1

theorem mem_nodes_ensureNode {G : DiGraph} {k : String} {p}
    (h : p ∈ (G.ensureNode k).nodes) : p ∈ G.nodes ∨ p.2 = (⟨none, none⟩ : NodeAttrs) := by
  unfold DiGraph.ensureNode at h
  by_cases hk : G.hasNode k
  · simp [hk] at h; exact Or.inl h
  · simp [hk] at h
    rcases h with h | h
    · exact Or.inl h
    · exact Or.inr (by simp [h])

theorem mem_nodes_addEdge {G : DiGraph} {u v ty : String} {p}
    (h : p ∈ (G.addEdge u v ty).nodes) :
    p ∈ G.nodes ∨ p.2 = (⟨none, none⟩ : NodeAttrs) := by
  unfold DiGraph.addEdge at h
  rcases mem_nodes_ensureNode (G := G.ensureNode u) h with h' | h'
  · exact mem_nodes_ensureNode h'
  · exact Or.inr h'

theorem edges_ensureNode {G : DiGraph} {x : String} :
    (G.ensureNode x).edges = G.edges := by
  unfold DiGraph.ensureNode
  by_cases h : G.hasNode x <;> simp [h]

theorem edges_addEdge {G : DiGraph} {u v ty : String} :
    (G.addEdge u v ty).edges = updateEdge u v ty G.edges := by
  unfold DiGraph.addEdge
  simp [edges_ensureNode]

theorem mem_edges_addEdge {G : DiGraph} {u v ty : String} {e}
    (h : e ∈ (G.addEdge u v ty).edges) : e = (u, v, ty) ∨ e ∈ G.edges := by
  rw [edges_addEdge] at h
  exact mem_updateEdge h

theorem mem_edges_addEdge_self {G : DiGraph} {u v ty : String} :
    (u, v, ty) ∈ (G.addEdge u v ty).edges := by
  rw [edges_addEdge]
  exact updateEdge_mem_self _

theorem mem_edges_addEdge_of_mem {G : DiGraph} {u v ty : String}
    {e : String × String × String} (hne : ¬(e.1 = u ∧ e.2.1 = v))
    (h : e ∈ G.edges) : e ∈ (G.addEdge u v ty).edges := by
  rw [edges_addEdge]
  exact mem_updateEdge_of_ne hne h

theorem edges_addNode {G : DiGraph} {k : String} {a : NodeAttrs} :
    (G.addNode k a).edges = G.edges := rfl

theorem EdgesClosed_empty : EdgesClosed DiGraph.empty := by
  intro e he; simp [DiGraph.empty] at he

theorem EdgesClosed_addNode {G : DiGraph} {k : String} {a : NodeAttrs}
    (h : EdgesClosed G) : EdgesClosed (G.addNode k a) := by
  intro e he
  rw [edges_addNode] at he
  exact ⟨hasNode_addNode (h e he).1, hasNode_addNode (h e he).2⟩

theorem EdgesClosed_addEdge {G : DiGraph} {u v ty : String}
    (h : EdgesClosed G) : EdgesClosed (G.addEdge u v ty) := by
  intro e he
  rcases mem_edges_addEdge he with rfl | he'
  · exact ⟨hasNode_addEdge_left, hasNode_addEdge_right⟩
  · exact ⟨hasNode_addEdge (h e he').1, hasNode_addEdge (h e he').2⟩

theorem EdgesDistinct_empty : EdgesDistinct DiGraph.empty := by
  intro e he; simp [DiGraph.empty] at he

theorem EdgesDistinct_addNode {G : DiGraph} {k : String} {a : NodeAttrs}
    (h : EdgesDistinct G) : EdgesDistinct (G.addNode k a) := by
  intro e he; rw [edges_addNode] at he; exact h e he

theorem EdgesDistinct_addEdge {G : DiGraph} {u v ty : String} (huv : u ≠ v)
    (h : EdgesDistinct G) : EdgesDistinct (G.addEdge u v ty) := by
  intro e he
  rcases mem_edges_addEdge he with rfl | he'
  · exact huv
  · exact h e he'

theorem NodesOk_empty {P : String → String → Prop} : NodesOk P DiGraph.empty := by
  intro p hp; simp [DiGraph.empty] at hp

theorem NodesOk_addNode {P : String → String → Prop} {G : DiGraph}
    {k : String} {a : NodeAttrs} (h : NodesOk P G)
    (ha : ∀ g, a.gender? = some g → P k g) : NodesOk P (G.addNode k a) := by
  intro p hp g hg
  rcases mem_updateNode hp with rfl | hp'
  · exact ha g hg
  · exact h p hp' g hg

theorem NodesOk_ensureNode {P : String → String → Prop} {G : DiGraph}
    {k : String} (h : NodesOk P G) : NodesOk P (G.ensureNode k) := by
  intro p hp g hg
  rcases mem_nodes_ensureNode hp with hp' | hp'
  · exact h p hp' g hg
  · rw [hp'] at hg; simp at hg

theorem NodesOk_addEdge {P : String → String → Prop} {G : DiGraph}
    {u v ty : String} (h : NodesOk P G) : NodesOk P (G.addEdge u v ty) := by
  intro p hp g hg
  rcases mem_nodes_addEdge hp with hp' | hp'
  · exact h p hp' g hg
  · rw [hp'] at hg; simp at hg

theorem hasEdge_iff {G : DiGraph} {u v : String} :
    G.hasEdge u v = true ↔ ∃ ty, (u, v, ty) ∈ G.edges := by
  simp only [DiGraph.hasEdge, List.any_eq_true, Bool.and_eq_true, beq_iff_eq]
  constructor
  · rintro ⟨e, he, h1, h2⟩
    exact ⟨e.2.2, by rwa [← h1, ← h2]⟩
  · rintro ⟨ty, hty⟩
    exact ⟨(u, v, ty), hty, rfl, rfl⟩

theorem hasEdge_addEdge {G : DiGraph} {u v ty a b : String}
    (h : G.hasEdge a b = true) : (G.addEdge u v ty).hasEdge a b = true := by
  rw [hasEdge_iff] at h ⊢
  rcases h with ⟨ty', hty'⟩
  by_cases hk : a = u ∧ b = v
  · exact ⟨ty, by rw [hk.1, hk.2]; exact mem_edges_addEdge_self⟩
  · exact ⟨ty', mem_edges_addEdge_of_mem (by simpa using hk) hty'⟩

theorem hasEdge_addEdge_self {G : DiGraph} {u v ty : String} :
    (G.addEdge u v ty).hasEdge u v = true := by
  rw [hasEdge_iff]
  exact ⟨ty, mem_edges_addEdge_self⟩

theorem hasEdge_addEdge_other {G : DiGraph} {u v ty a b : String}
    (hne : ¬(a = u ∧ b = v)) :
    (G.addEdge u v ty).hasEdge a b = G.hasEdge a b := by
  cases hab : G.hasEdge a b with
  | true => exact hasEdge_addEdge hab
  | false =>
    refine Bool.eq_false_iff.mpr ?_
    intro h'
    rcases hasEdge_iff.mp h' with ⟨ty', hty'⟩
    rcases mem_edges_addEdge hty' with heq | hm
    · exact hne ⟨congrArg Prod.fst heq, by simpa using congrArg (fun e => e.2.1) heq⟩
    · rw [hasEdge_iff.mpr ⟨ty', hm⟩] at hab
      exact absurd hab (by simp)

/-! ## Serialization transfer lemmas -/

theorem serializeNodes_ok {ns : List (String × NodeAttrs)} {outs : List NodeOut}
    (h : serializeNodes ns = .ok outs) :
    (∀ o ∈ outs, ∃ a, (o.id, a) ∈ ns ∧ a.type? = some o.type ∧ a.gender? = some o.gender) ∧
    (∀ p ∈ ns, ∃ o ∈ outs, o.id = p.1) := by
  induction ns generalizing outs with
  | nil =>
    simp [serializeNodes] at h
    subst h
    exact ⟨by simp, by simp⟩
  | cons q rest ih =>
    obtain ⟨id, a⟩ := q
    simp only [serializeNodes] at h
    cases hty : a.type? with
    | none => rw [hty] at h; cases hg : a.gender? <;> rw [hg] at h <;> simp at h
    | some t =>
      cases hg : a.gender? with
      | none => rw [hty, hg] at h; simp at h
      | some g =>
        rw [hty, hg] at h
        cases hrec : serializeNodes rest with
        | error e => rw [hrec] at h; simp at h
        | ok outs' =>
          rw [hrec] at h
          simp at h
          subst h
          rcases ih hrec with ⟨h1, h2⟩
          constructor
          · intro o ho
            rcases List.mem_cons.mp ho with rfl | ho'
            · exact ⟨a, by simp, hty, hg⟩
            · rcases h1 o ho' with ⟨a', ha', h3, h4⟩
              exact ⟨a', List.mem_cons_of_mem _ ha', h3, h4⟩
          · intro p hp
            rcases List.mem_cons.mp hp with rfl | hp'
            · exact ⟨⟨id, t, g⟩, by simp⟩
            · rcases h2 p hp' with ⟨o, ho, hid⟩
              exact ⟨o, List.mem_cons_of_mem _ ho, hid⟩

theorem serializeNodesBasicFallback_ok {ns : List (String × NodeAttrs)}
    {outs : List NodeOut} (h : serializeNodesBasicFallback ns = .ok outs) :
    (∀ o ∈ outs, ∃ a, (o.id, a) ∈ ns ∧ a.gender? = some o.gender) ∧
    (∀ p ∈ ns, ∃ o ∈ outs, o.id = p.1) := by
  induction ns generalizing outs with
  | nil =>
    simp [serializeNodesBasicFallback] at h
    subst h
    exact ⟨by simp, by simp⟩
  | cons q rest ih =>
    obtain ⟨id, a⟩ := q
    simp only [serializeNodesBasicFallback] at h
    cases hg : a.gender? with
    | none => rw [hg] at h; simp at h
    | some g =>
      rw [hg] at h
      cases hrec : serializeNodesBasicFallback rest with
      | error e => rw [hrec] at h; simp at h
      | ok outs' =>
        rw [hrec] at h
        simp at h
        subst h
        rcases ih hrec with ⟨h1, h2⟩
        constructor
        · intro o ho
          rcases List.mem_cons.mp ho with rfl | ho'
          · exact ⟨a, by simp, hg⟩
          · rcases h1 o ho' with ⟨a', ha', h3⟩
            exact ⟨a', List.mem_cons_of_mem _ ha', h3⟩
        · intro p hp
          rcases List.mem_cons.mp hp with rfl | hp'
          · exact ⟨⟨id, "Entity", g⟩, by simp⟩
          · rcases h2 p hp' with ⟨o, ho, hid⟩
            exact ⟨o, List.mem_cons_of_mem _ ho, hid⟩

theorem serializeNodesBasicFallback_total {ns : List (String × NodeAttrs)}
    (h : ∀ p ∈ ns, (p.2.gender?).isSome = true) :
    ∃ outs, serializeNodesBasicFallback ns = .ok outs := by
  induction ns with
  | nil => exact ⟨[], rfl⟩
  | cons q rest ih =>
    obtain ⟨id, a⟩ := q
    have hg : a.gender?.isSome = true := h (id, a) (by simp)
    rcases Option.isSome_iff_exists.mp hg with ⟨g, hgeq⟩
    rcases ih (fun p hp => h p (List.mem_cons_of_mem _ hp)) with ⟨outs', hrec⟩
    exact ⟨⟨id, "Entity", g⟩ :: outs', by simp [serializeNodesBasicFallback, hgeq, hrec]⟩

theorem serializeGraph_ok {G : DiGraph} {out : GraphOut}
    (h : serializeGraph G = .ok out) :
    serializeNodes G.nodes = .ok out.nodes ∧ out.relationships = serializeRels G.edges := by
  unfold serializeGraph at h
  cases hns : serializeNodes G.nodes with
  | error e => rw [hns] at h; simp at h
  | ok outs => rw [hns] at h; simp at h; subst h; exact ⟨rfl, rfl⟩

/-- Endpoint validity of a serialized graph follows from `EdgesClosed`. -/
theorem serializeGraph_endpoints {G : DiGraph} {out : GraphOut}
    (h : serializeGraph G = .ok out) (hc : EdgesClosed G) :
    ∀ r ∈ out.relationships,
      (∃ n ∈ out.nodes, n.id = r.source) ∧ (∃ n ∈ out.nodes, n.id = r.target) := by
  rcases serializeGraph_ok h with ⟨hns, hrel⟩
  intro r hr
  rw [hrel] at hr
  rcases List.mem_map.mp hr with ⟨e, he, rfl⟩
  rcases hc e he with ⟨h1, h2⟩
  rcases hasNode_iff.mp h1 with ⟨a1, ha1⟩
  rcases hasNode_iff.mp h2 with ⟨a2, ha2⟩
  have hkeys := (serializeNodes_ok hns).2
  exact ⟨hkeys (e.1, a1) ha1, hkeys (e.2.1, a2) ha2⟩

/-- Gender facts about serialized nodes follow from `NodesOk`. -/
theorem serializeGraph_nodesOk {P : String → String → Prop} {G : DiGraph}
    {out : GraphOut} (h : serializeGraph G = .ok out) (hn : NodesOk P G) :
    ∀ n ∈ out.nodes, P n.id n.gender := by
  rcases serializeGraph_ok h with ⟨hns, _⟩
  intro n hmem
  rcases (serializeNodes_ok hns).1 n hmem with ⟨a, ha, _, hg⟩
  exact hn (n.id, a) ha n.gender hg

/-- Self-loop freedom of a serialized graph follows from `EdgesDistinct`. -/
theorem serializeGraph_distinct {G : DiGraph} {out : GraphOut}
    (h : serializeGraph G = .ok out) (hd : EdgesDistinct G) :
    ∀ r ∈ out.relationships, r.source ≠ r.target := by
  rcases serializeGraph_ok h with ⟨_, hrel⟩
  intro r hr
  rw [hrel] at hr
  rcases List.mem_map.mp hr with ⟨e, he, rfl⟩
  exact hd e he

/-! ## Gender inference lemmas -/

/-- Coreference evidence takes precedence inside `identify_gender_llm`. -/
theorem igl_of_lookup {llm : String → Except String String}
    {e t v : String} {gm : GenderMap} (h : lookupGM gm e = some v) :
    identify_gender_llm llm e t gm = v := by
  unfold identify_gender_llm
  rw [h]

theorem lookupGM_mem {gm : GenderMap} {k v : String}
    (h : lookupGM gm k = some v) : ∃ k', (k', v) ∈ gm := by
  unfold lookupGM at h
  cases hf : gm.find? (fun p => p.1 == k) with
  | none => rw [hf] at h; simp at h
  | some p =>
    rw [hf] at h
    simp at h
    refine ⟨p.1, ?_⟩
    rw [← h]
    simpa only [Prod.mk.eta] using List.mem_of_find?_eq_some hf

/-- All values of a gender map are in the two-element set. -/
def GM_MF (gm : GenderMap) : Prop := ∀ p ∈ gm, p.2 = "male" ∨ p.2 = "female"

theorem igl_vocab {llm : String → Except String String} {e t : String}
    {gm : GenderMap} (hmf : GM_MF gm) :
    identify_gender_llm llm e t gm = "male" ∨
    identify_gender_llm llm e t gm = "female" ∨
    identify_gender_llm llm e t gm = "unknown" := by
  unfold identify_gender_llm
  cases hl : lookupGM gm e with
  | some v =>
    rcases lookupGM_mem hl with ⟨k', hk'⟩
    rcases hmf (k', v) hk' with h | h
    · exact Or.inl h
    · exact Or.inr (Or.inl h)
  | none =>
    by_cases ht : lowerStr t ≠ "person"
    · simp [ht]
    · simp only [ht, if_false]
      cases hllm : llm (genderPrompt e t) with
      | error err => simp
      | ok response =>
        by_cases hv : genderVocab.contains (trimStr (lowerStr response))
        · have hmem : trimStr (lowerStr response) = "male" ∨
              trimStr (lowerStr response) = "female" ∨
              trimStr (lowerStr response) = "unknown" := by
            simpa [genderVocab] using hv
          simp only [hv, if_true]
          tauto
        · have hv' : trimStr (lowerStr response) ∉ genderVocab := by simpa using hv
          simp [hv']

/-- The gender attached to a node is `GoodGender` when it comes from the
map, from `identify_gender_llm`, or from `gender_map.get(w, 'unknown')`. -/
def GoodGender (gm : GenderMap) (k g : String) : Prop :=
  (∀ v, lookupGM gm k = some v → g = v) ∧
  (g = "male" ∨ g = "female" ∨ g = "unknown")

theorem good_igl {llm : String → Except String String} {k t : String}
    {gm : GenderMap} (hmf : GM_MF gm) :
    GoodGender gm k (identify_gender_llm llm k t gm) := by
  constructor
  · intro v hv
    exact igl_of_lookup hv
  · exact igl_vocab hmf

theorem good_lookup {gm : GenderMap} {k v0 : String} (hmf : GM_MF gm)
    (h : lookupGM gm k = some v0) : GoodGender gm k v0 := by
  constructor
  · intro v hv
    rw [h] at hv
    exact Option.some_injective _ hv
  · rcases lookupGM_mem h with ⟨k', hk'⟩
    rcases hmf (k', v0) hk' with h' | h'
    · exact Or.inl h'
    · exact Or.inr (Or.inl h')

theorem good_getD {gm : GenderMap} {k : String} (hmf : GM_MF gm) :
    GoodGender gm k ((lookupGM gm k).getD "unknown") := by
  cases hl : lookupGM gm k with
  | none =>
    refine ⟨fun v hv => ?_, Or.inr (Or.inr rfl)⟩
    rw [hl] at hv
    exact absurd hv (by simp)
  | some v0 =>
    simpa using good_lookup hmf hl

/-! ## Invariants of the coreference gender map -/

/-- What `identify_genders_coref` guarantees of every entry it writes. -/
def GMEntryOk (p : String × String) : Prop :=
  (p.2 = "male" ∨ p.2 = "female") ∧ headIsUpper p.1 = true ∧
  malePronouns.contains (lowerStr p.1) = false ∧
  femalePronouns.contains (lowerStr p.1) = false

theorem mem_dictInsert {k v : String} :
    ∀ {m : GenderMap} {p}, p ∈ dictInsert k v m → p = (k, v) ∨ p ∈ m := by
  intro m
  induction m with
  | nil => intro p hp; simp [dictInsert] at hp; exact Or.inl hp
  | cons q rest ih =>
    intro p hp
    simp only [dictInsert] at hp
    by_cases hk : q.1 == k
    · simp [hk] at hp
      rcases hp with h | h
      · exact Or.inl (by simp [h])
      · exact Or.inr (List.mem_cons_of_mem _ h)
    · simp [hk] at hp
      rcases hp with h | h
      · exact Or.inr (by simp [h])
      · rcases ih h with h' | h'
        · exact Or.inl h'
        · exact Or.inr (List.mem_cons_of_mem _ h')

/-- The map a Python loop body left behind, whether or not it raised. -/
def exceptPayload : Except GenderMap GenderMap → GenderMap
  | .ok m => m
  | .error m => m

theorem headIsUpper_of {w : String} {c : Char} {tl : List Char}
    (h : w.toList = c :: tl) (hu : c.isUpper = true) : headIsUpper w = true := by
  unfold headIsUpper
  rw [h]
  exact hu

theorem assignCluster_inv {g : String} (hg : g = "male" ∨ g = "female") :
    ∀ (cluster : List String) (m : GenderMap), (∀ p ∈ m, GMEntryOk p) →
      ∀ p ∈ exceptPayload (assignCluster g cluster m), GMEntryOk p := by
  intro cluster
  induction cluster with
  | nil => intro m hm; simpa [assignCluster, exceptPayload] using hm
  | cons entity rest ih =>
    intro m hm
    simp only [assignCluster]
    by_cases hcond : (!(malePronouns.contains (lowerStr entity)) &&
        !(femalePronouns.contains (lowerStr entity))) = true
    · rw [if_pos hcond]
      rcases Bool.and_eq_true_iff.mp hcond with ⟨hm1, hf1⟩
      have hmp : malePronouns.contains (lowerStr entity) = false := by
        simpa using hm1
      have hfp : femalePronouns.contains (lowerStr entity) = false := by
        simpa using hf1
      cases hel : entity.toList with
      | nil =>
        show ∀ p ∈ exceptPayload (Except.error m), GMEntryOk p
        simpa [exceptPayload] using hm
      | cons c tl =>
        show ∀ p ∈ exceptPayload (assignCluster g rest
          (if c.isUpper = true then dictInsert entity g m else m)), GMEntryOk p
        by_cases hup : c.isUpper = true
        · rw [if_pos hup]
          have hentry : GMEntryOk (entity, g) :=
            ⟨hg, headIsUpper_of hel hup, hmp, hfp⟩
          refine ih (dictInsert entity g m) ?_
          intro p hp
          rcases mem_dictInsert hp with rfl | hp'
          · exact hentry
          · exact hm p hp'
        · rw [if_neg hup]
          exact ih m hm
    · rw [if_neg hcond]
      exact ih m hm

theorem clusterGender_some {cluster : List String} {g : String}
    (h : clusterGender cluster = some g) : g = "male" ∨ g = "female" := by
  simp only [clusterGender] at h
  split at h
  · exact Or.inl (by simpa using h.symm)
  · split at h
    · exact Or.inr (by simpa using h.symm)
    · simp at h

theorem processClusters_inv :
    ∀ (clusters : List (List String)) (m : GenderMap),
      (∀ p ∈ m, GMEntryOk p) →
      ∀ p ∈ exceptPayload (processClusters clusters m), GMEntryOk p := by
  intro clusters
  induction clusters with
  | nil => intro m hm; simpa [processClusters, exceptPayload] using hm
  | cons cluster rest ih =>
    intro m hm
    simp only [processClusters]
    cases hcg : clusterGender cluster with
    | none =>
      show ∀ p ∈ exceptPayload (processClusters rest m), GMEntryOk p
      exact ih m hm
    | some g =>
      have hinner := assignCluster_inv (clusterGender_some hcg) cluster m hm
      show ∀ p ∈ exceptPayload (match assignCluster g cluster m with
        | Except.ok m' => processClusters rest m'
        | Except.error m' => Except.error m'), GMEntryOk p
      revert hinner
      cases assignCluster g cluster m with
      | ok m' =>
        intro hinner
        exact ih m' (by simpa [exceptPayload] using hinner)
      | error m' =>
        intro hinner
        simpa [exceptPayload] using hinner

/-- Every entry of the coreference gender map satisfies `GMEntryOk`. -/
theorem coref_gm_inv (corefPredict : String → Except String (List (List String)))
    (text : String) :
    ∀ p ∈ identify_genders_coref corefPredict text, GMEntryOk p := by
  unfold identify_genders_coref
  cases hcp : corefPredict text with
  | error e => simp
  | ok clusters =>
    have h := processClusters_inv clusters [] (by simp)
    show ∀ p ∈ (match processClusters clusters [] with
      | Except.ok m => m
      | Except.error m => m), GMEntryOk p
    revert h
    cases processClusters clusters [] with
    | ok m => intro h; simpa [exceptPayload] using h
    | error m => intro h; simpa [exceptPayload] using h

/-- The coreference gender map only holds `male`/`female` values. -/
theorem coref_gm_mf (corefPredict : String → Except String (List (List String)))
    (text : String) : GM_MF (identify_genders_coref corefPredict text) :=
  fun p hp => (coref_gm_inv corefPredict text p hp).1

/-! ## Path-level preservation lemmas -/

theorem hasNode_addNode_self {G : DiGraph} {k : String} {a : NodeAttrs} :
    (G.addNode k a).hasNode k = true := by
  rw [hasNode_iff]
  exact ⟨a, updateNode_mem_self _⟩

theorem ensureNode_of_hasNode {G : DiGraph} {x : String}
    (h : G.hasNode x = true) : G.ensureNode x = G := by
  unfold DiGraph.ensureNode
  rw [if_pos h]

theorem addEdge_nodes_of_hasNode {G : DiGraph} {u v ty : String}
    (hu : G.hasNode u = true) (hv : G.hasNode v = true) :
    (G.addEdge u v ty).nodes = G.nodes := by
  unfold DiGraph.addEdge
  rw [ensureNode_of_hasNode hu, ensureNode_of_hasNode hv]

theorem extractRelations_preserve {Q : DiGraph → Prop} {entities : List String}
    {sents : List SpacySent}
    (hAdd : ∀ (G : DiGraph) (u v ty : String), u ≠ v → Q G → Q (G.addEdge u v ty)) :
    ∀ {G : DiGraph}, Q G → Q (extractRelations entities sents G) := by
  intro G hG
  unfold extractRelations
  refine foldl_preserve ?_ sents G hG
  intro G sent hG'
  refine foldl_preserve ?_ sent.tokens G hG'
  intro G token hG''
  dsimp only
  by_cases hdep : depRoles.contains token.dep = true
  · rw [if_pos hdep]
    cases hs : findSourceEntity entities sent.tokens token.headIdx with
    | none =>
      cases ht : findTargetEntity entities token.text <;> exact hG''
    | some s =>
      cases ht : findTargetEntity entities token.text with
      | none => exact hG''
      | some t =>
        show Q (if s ≠ "" ∧ t ≠ "" ∧ s ≠ t then
          G.addEdge s t ("REL_" ++ upperStr token.headText) else G)
        by_cases hok : s ≠ "" ∧ t ≠ "" ∧ s ≠ t
        · rw [if_pos hok]
          exact hAdd _ _ _ _ hok.2.2 hG''
        · rw [if_neg hok]
          exact hG''
  · rw [if_neg hdep]
    exact hG''

theorem chainPairs_preserve {Q : DiGraph → Prop} :
    ∀ (l : List String), l.Nodup →
      (∀ (G : DiGraph) (a b : String), a ≠ b → Q G → Q (G.addEdge a b "RELATED_TO")) →
      ∀ {G : DiGraph}, Q G → Q (chainPairs G l) := by
  intro l
  induction l with
  | nil => intro _ _ G hG; simpa [chainPairs] using hG
  | cons a tail ih =>
    intro hnd hAdd G hG
    cases tail with
    | nil => simpa [chainPairs] using hG
    | cons b rest =>
      simp only [chainPairs]
      have hab : a ≠ b := by
        intro hEq
        exact (List.nodup_cons.mp hnd).1 (hEq ▸ List.mem_cons_self b rest)
      refine ih (List.nodup_cons.mp hnd).2 hAdd ?_
      by_cases he : G.hasEdge a b = true
      · rw [if_pos he]; exact hG
      · rw [if_neg he]; exact hAdd G a b hab hG

theorem addBackstop_preserve {Q : DiGraph → Prop} {entities : List String}
    (hnd : entities.Nodup)
    (hAdd : ∀ (G : DiGraph) (a b : String), a ≠ b → Q G → Q (G.addEdge a b "RELATED_TO")) :
    ∀ {G : DiGraph}, Q G → Q (addBackstop entities G) := by
  intro G hG
  unfold addBackstop
  split
  · exact chainPairs_preserve entities hnd hAdd hG
  · exact hG

theorem chainAllPairs_preserve {Q : DiGraph → Prop}
    (hAdd : ∀ (G : DiGraph) (a b : String), Q G → Q (G.addEdge a b "RELATED_TO")) :
    ∀ (l : List String) {G : DiGraph}, Q G → Q (chainAllPairs G l) := by
  intro l
  induction l with
  | nil => intro G hG; simpa [chainAllPairs] using hG
  | cons a tail ih =>
    intro G hG
    cases tail with
    | nil => simpa [chainAllPairs] using hG
    | cons b rest =>
      simp only [chainAllPairs]
      exact ih (hAdd G a b hG)

theorem insertNew_nodup {x : String} {l : List String} (h : l.Nodup) :
    (insertNew x l).Nodup := by
  unfold insertNew
  by_cases hc : l.contains x = true
  · rw [if_pos hc]; exact h
  · rw [if_neg hc]
    have hx : x ∉ l := by simpa using hc
    rw [List.nodup_append]
    exact ⟨h, List.nodup_singleton x, by
      intro a ha hax
      simp at hax
      exact hx (hax ▸ ha)⟩

theorem collectEntities_nodup (ents : List SpacyEnt) :
    (collectEntities ents).1.Nodup := by
  unfold collectEntities
  have := foldl_preserve
    (P := fun acc : List String × List (String × List SpacyEnt) => acc.1.Nodup)
    (f := fun acc ent =>
      if validLabels.contains ent.label = true then
        (insertNew (trimStr ent.text) acc.1, appendMention (trimStr ent.text) ent acc.2)
      else acc)
    ?_ ents ([], []) (by simp)
  · exact this
  · intro acc ent hacc
    dsimp only
    by_cases hl : validLabels.contains ent.label = true
    · rw [if_pos hl]; exact insertNew_nodup hacc
    · rw [if_neg hl]; exact hacc

/-! ## Invariants of the three extraction tiers -/

theorem buildPrimaryGraph_closed {llm : String → Except String String}
    {doc : GraphDoc} {gm : GenderMap} :
    EdgesClosed (buildPrimaryGraph llm doc gm) := by
  unfold buildPrimaryGraph
  refine foldl_preserve (fun G r hG => EdgesClosed_addEdge hG) doc.relationships _ ?_
  exact foldl_preserve (fun G n hG => EdgesClosed_addNode hG) doc.nodes _ EdgesClosed_empty

theorem buildPrimaryGraph_good {llm : String → Except String String}
    {doc : GraphDoc} {gm : GenderMap} (hmf : GM_MF gm) :
    NodesOk (GoodGender gm) (buildPrimaryGraph llm doc gm) := by
  unfold buildPrimaryGraph
  refine foldl_preserve (fun G r hG => NodesOk_addEdge hG) doc.relationships _ ?_
  refine foldl_preserve ?_ doc.nodes _ NodesOk_empty
  intro G n hG
  refine NodesOk_addNode hG ?_
  intro g hg
  have hg' : identify_gender_llm llm n.id n.type gm = g := by simpa using hg
  rw [← hg']
  exact good_igl hmf

theorem addBasicNodes_closed {llm : String → Except String String}
    {entities : List String} {ems : List (String × List SpacyEnt)}
    {gm : GenderMap} {G : DiGraph} (hG : EdgesClosed G) :
    EdgesClosed (addBasicNodes llm entities ems gm G) := by
  unfold addBasicNodes
  exact foldl_preserve (fun G e hG => EdgesClosed_addNode hG) entities G hG

theorem addBasicNodes_distinct {llm : String → Except String String}
    {entities : List String} {ems : List (String × List SpacyEnt)}
    {gm : GenderMap} {G : DiGraph} (hG : EdgesDistinct G) :
    EdgesDistinct (addBasicNodes llm entities ems gm G) := by
  unfold addBasicNodes
  exact foldl_preserve (fun G e hG => EdgesDistinct_addNode hG) entities G hG

theorem addBasicNodes_good {llm : String → Except String String}
    {entities : List String} {ems : List (String × List SpacyEnt)}
    {gm : GenderMap} {G : DiGraph} (hmf : GM_MF gm)
    (hG : NodesOk (GoodGender gm) G) :
    NodesOk (GoodGender gm) (addBasicNodes llm entities ems gm G) := by
  unfold addBasicNodes
  refine foldl_preserve ?_ entities G hG
  intro G entity hG'
  refine NodesOk_addNode hG' ?_
  intro g hg
  have hg' : (match lookupGM gm entity with
      | some g0 => g0
      | none => identify_gender_llm llm entity (entityTypeFor ems entity) gm) = g := by
    simpa using hg
  rw [← hg']
  cases hl : lookupGM gm entity with
  | some g0 => exact good_lookup hmf hl
  | none => exact good_igl hmf

/-- The graph built by the `try` body of `_create_basic_graph`. -/
def basicGraphOf (svc : Services) (doc : SpacyDoc) (gm : GenderMap) : DiGraph :=
  let em := collectEntities doc.ents
  addBackstop em.1 (extractRelations em.1 doc.sents
    (addBasicNodes svc.llmPredict em.1 em.2 gm DiGraph.empty))

theorem basicGraphOf_closed {svc : Services} {doc : SpacyDoc} {gm : GenderMap} :
    EdgesClosed (basicGraphOf svc doc gm) := by
  unfold basicGraphOf
  refine addBackstop_preserve (collectEntities_nodup doc.ents)
    (fun G a b _ hG => EdgesClosed_addEdge hG) ?_
  refine extractRelations_preserve (fun G u v ty _ hG => EdgesClosed_addEdge hG) ?_
  exact addBasicNodes_closed EdgesClosed_empty

theorem basicGraphOf_distinct {svc : Services} {doc : SpacyDoc} {gm : GenderMap} :
    EdgesDistinct (basicGraphOf svc doc gm) := by
  unfold basicGraphOf
  refine addBackstop_preserve (collectEntities_nodup doc.ents)
    (fun G a b hab hG => EdgesDistinct_addEdge hab hG) ?_
  refine extractRelations_preserve (fun G u v ty huv hG => EdgesDistinct_addEdge huv hG) ?_
  exact addBasicNodes_distinct EdgesDistinct_empty

theorem basicGraphOf_good {svc : Services} {doc : SpacyDoc} {gm : GenderMap}
    (hmf : GM_MF gm) : NodesOk (GoodGender gm) (basicGraphOf svc doc gm) := by
  unfold basicGraphOf
  refine addBackstop_preserve (collectEntities_nodup doc.ents)
    (fun G a b _ hG => NodesOk_addEdge hG) ?_
  refine extractRelations_preserve (fun G u v ty _ hG => NodesOk_addEdge hG) ?_
  exact addBasicNodes_good hmf NodesOk_empty

theorem basicGraphBody_eq {svc : Services} {text : String} {gm : GenderMap}
    {doc : SpacyDoc} (hsp : svc.spacyParse text = .ok doc) :
    basicGraphBody svc text gm = serializeGraph (basicGraphOf svc doc gm) := by
  unfold basicGraphBody basicGraphOf
  rw [hsp]

/-! ## Invariants of the capitalized-word fallback tier -/

/-- The node-building fold of `buildFallbackGraph`. -/
def fallbackNodesFold (gm : GenderMap) (words : List String) : DiGraph :=
  words.foldl
    (fun G w => G.addNode w ⟨some "Entity", some ((lookupGM gm w).getD "unknown")⟩)
    DiGraph.empty

theorem buildFallbackGraph_eq {text : String} {gm : GenderMap} :
    buildFallbackGraph text gm =
      chainAllPairs (fallbackNodesFold gm (capWords text)) (capWords text) := rfl

theorem foldl_addNode_hasNode_self {f : String → NodeAttrs} :
    ∀ (l : List String) (G : DiGraph) (w : String), w ∈ l →
      ((l.foldl (fun G w => G.addNode w (f w)) G).hasNode w) = true := by
  intro l
  induction l with
  | nil => intro G w hw; simp at hw
  | cons a rest ih =>
    intro G w hw
    simp only [List.foldl_cons]
    rcases List.mem_cons.mp hw with rfl | hw'
    · exact foldl_preserve (P := fun G : DiGraph => G.hasNode w = true)
        (fun G x h => hasNode_addNode h) rest _ hasNode_addNode_self
    · exact ih _ w hw'

theorem fallbackNodesFold_hasNode {gm : GenderMap} {words : List String}
    {w : String} (hw : w ∈ words) :
    (fallbackNodesFold gm words).hasNode w = true :=
  foldl_addNode_hasNode_self words DiGraph.empty w hw

theorem fallbackNodesFold_gendered {gm : GenderMap} {words : List String} :
    ∀ p ∈ (fallbackNodesFold gm words).nodes, (p.2.gender?).isSome = true := by
  unfold fallbackNodesFold
  refine foldl_preserve
    (P := fun G : DiGraph => ∀ p ∈ G.nodes, (p.2.gender?).isSome = true)
    ?_ words DiGraph.empty ?_
  · intro G w hG p hp
    rcases mem_updateNode hp with rfl | hp'
    · simp
    · exact hG p hp'
  · intro p hp
    simp [DiGraph.empty] at hp

theorem fallbackNodesFold_good {gm : GenderMap} {words : List String}
    (hmf : GM_MF gm) : NodesOk (GoodGender gm) (fallbackNodesFold gm words) := by
  unfold fallbackNodesFold
  refine foldl_preserve ?_ words DiGraph.empty NodesOk_empty
  intro G w hG
  refine NodesOk_addNode hG ?_
  intro g hg
  have hg' : (lookupGM gm w).getD "unknown" = g := by simpa using hg
  rw [← hg']
  exact good_getD hmf

theorem fallbackNodesFold_closed {gm : GenderMap} {words : List String} :
    EdgesClosed (fallbackNodesFold gm words) := by
  unfold fallbackNodesFold
  exact foldl_preserve (fun G w hG => EdgesClosed_addNode hG) words DiGraph.empty
    EdgesClosed_empty

theorem chainAllPairs_nodes_eq :
    ∀ (l : List String) {G : DiGraph}, (∀ w ∈ l, G.hasNode w = true) →
      (chainAllPairs G l).nodes = G.nodes := by
  intro l
  induction l with
  | nil => intro G _; simp [chainAllPairs]
  | cons a tail ih =>
    intro G h
    cases tail with
    | nil => simp [chainAllPairs]
    | cons b rest =>
      simp only [chainAllPairs]
      have ha : G.hasNode a = true := h a (by simp)
      have hb : G.hasNode b = true := h b (by simp)
      have hn : (G.addEdge a b "RELATED_TO").nodes = G.nodes :=
        addEdge_nodes_of_hasNode ha hb
      have h' : ∀ w ∈ b :: rest, (G.addEdge a b "RELATED_TO").hasNode w = true := by
        intro w hw
        unfold DiGraph.hasNode
        rw [hn]
        exact h w (List.mem_cons_of_mem _ hw)
      rw [ih h', hn]

theorem buildFallbackGraph_nodes {text : String} {gm : GenderMap} :
    (buildFallbackGraph text gm).nodes = (fallbackNodesFold gm (capWords text)).nodes := by
  rw [buildFallbackGraph_eq]
  exact chainAllPairs_nodes_eq (capWords text)
    (fun w hw => fallbackNodesFold_hasNode hw)

theorem buildFallbackGraph_closed {text : String} {gm : GenderMap} :
    EdgesClosed (buildFallbackGraph text gm) := by
  rw [buildFallbackGraph_eq]
  exact chainAllPairs_preserve (fun G a b hG => EdgesClosed_addEdge hG)
    (capWords text) fallbackNodesFold_closed

theorem buildFallbackGraph_good {text : String} {gm : GenderMap} (hmf : GM_MF gm) :
    NodesOk (GoodGender gm) (buildFallbackGraph text gm) := by
  intro p hp g hg
  rw [buildFallbackGraph_nodes] at hp
  exact fallbackNodesFold_good hmf p hp g hg

/-- The fallback tier cannot raise: every node it serializes has a gender. -/
theorem basicFallback_total (text : String) (gm : GenderMap) :
    ∃ out, basicFallback text gm = .ok out := by
  have hg : ∀ p ∈ (buildFallbackGraph text gm).nodes, (p.2.gender?).isSome = true := by
    intro p hp
    rw [buildFallbackGraph_nodes] at hp
    exact fallbackNodesFold_gendered p hp
  rcases serializeNodesBasicFallback_total hg with ⟨outs, houts⟩
  refine ⟨⟨outs, serializeRels (buildFallbackGraph text gm).edges⟩, ?_⟩
  simp only [basicFallback]
  rw [houts]

/-- Endpoint validity and gender facts for the fallback tier's output. -/
theorem basicFallback_ok_props {text : String} {gm : GenderMap} {out : GraphOut}
    (hmf : GM_MF gm) (h : basicFallback text gm = .ok out) :
    (∀ r ∈ out.relationships,
      (∃ n ∈ out.nodes, n.id = r.source) ∧ (∃ n ∈ out.nodes, n.id = r.target)) ∧
    (∀ n ∈ out.nodes, GoodGender gm n.id n.gender) := by
  simp only [basicFallback] at h
  cases hns : serializeNodesBasicFallback (buildFallbackGraph text gm).nodes with
  | error e => rw [hns] at h; simp at h
  | ok outs =>
    rw [hns] at h
    simp at h
    subst h
    rcases serializeNodesBasicFallback_ok hns with ⟨h1, h2⟩
    constructor
    · intro r hr
      rcases List.mem_map.mp hr with ⟨e, he, rfl⟩
      rcases buildFallbackGraph_closed e he with ⟨hu, hv⟩
      rcases hasNode_iff.mp hu with ⟨a1, ha1⟩
      rcases hasNode_iff.mp hv with ⟨a2, ha2⟩
      exact ⟨h2 (e.1, a1) ha1, h2 (e.2.1, a2) ha2⟩
    · intro n hn
      rcases h1 n hn with ⟨a, ha, hg⟩
      exact buildFallbackGraph_good hmf (n.id, a) ha n.gender hg

/-! ## Putting the tiers together -/

theorem basicGraphBody_ok_props {svc : Services} {text : String}
    {gm : GenderMap} {out : GraphOut} (hmf : GM_MF gm)
    (h : basicGraphBody svc text gm = .ok out) :
    (∀ r ∈ out.relationships,
      (∃ n ∈ out.nodes, n.id = r.source) ∧ (∃ n ∈ out.nodes, n.id = r.target)) ∧
    (∀ n ∈ out.nodes, GoodGender gm n.id n.gender) ∧
    (∀ r ∈ out.relationships, r.source ≠ r.target) := by
  cases hsp : svc.spacyParse text with
  | error e =>
    simp only [basicGraphBody, hsp] at h
    exact absurd h (by simp)
  | ok doc =>
    rw [basicGraphBody_eq hsp] at h
    exact ⟨serializeGraph_endpoints h basicGraphOf_closed,
      serializeGraph_nodesOk h (basicGraphOf_good hmf),
      serializeGraph_distinct h basicGraphOf_distinct⟩

theorem create_basic_graph_total (svc : Services) (text : String) (gm : GenderMap) :
    ∃ out, create_basic_graph svc text gm = .ok out := by
  unfold create_basic_graph
  cases hb : basicGraphBody svc text gm with
  | ok g => exact ⟨g, rfl⟩
  | error e => exact basicFallback_total text gm

theorem create_basic_graph_ok_props {svc : Services} {text : String}
    {gm : GenderMap} {out : GraphOut} (hmf : GM_MF gm)
    (h : create_basic_graph svc text gm = .ok out) :
    (∀ r ∈ out.relationships,
      (∃ n ∈ out.nodes, n.id = r.source) ∧ (∃ n ∈ out.nodes, n.id = r.target)) ∧
    (∀ n ∈ out.nodes, GoodGender gm n.id n.gender) := by
  unfold create_basic_graph at h
  cases hb : basicGraphBody svc text gm with
  | ok g =>
    rw [hb] at h
    have hg : g = out := by simpa using h
    subst hg
    rcases basicGraphBody_ok_props hmf hb with ⟨h1, h2, _⟩
    exact ⟨h1, h2⟩
  | error e =>
    rw [hb] at h
    exact basicFallback_ok_props hmf h

theorem create_eq_error {svc : Services} {text e : String}
    (htr : svc.transform text = .error e) :
    create_graph_from_text svc text =
      create_basic_graph svc text (identify_genders_coref svc.corefPredict text) := by
  simp only [create_graph_from_text, htr]

theorem create_eq_none {svc : Services} {text : String}
    (htr : svc.transform text = .ok none) :
    create_graph_from_text svc text =
      create_basic_graph svc text (identify_genders_coref svc.corefPredict text) := by
  simp only [create_graph_from_text, htr]
  cases hcb : create_basic_graph svc text (identify_genders_coref svc.corefPredict text) <;>
    simp

theorem create_eq_some {svc : Services} {text : String} {doc : GraphDoc}
    (htr : svc.transform text = .ok (some doc)) :
    create_graph_from_text svc text =
      match serializeGraph (buildPrimaryGraph svc.llmPredict doc
        (identify_genders_coref svc.corefPredict text)) with
      | .ok g => .ok g
      | .error _ =>
        create_basic_graph svc text (identify_genders_coref svc.corefPredict text) := by
  simp only [create_graph_from_text, htr]

/-- The master lemma behind the top-level claims: whatever tier produced
the returned graph, its edges connect existing node ids and every node
gender is `GoodGender` for the coreference map. -/
theorem create_ok_props {svc : Services} {text : String} {out : GraphOut}
    (h : create_graph_from_text svc text = .ok out) :
    (∀ r ∈ out.relationships,
      (∃ n ∈ out.nodes, n.id = r.source) ∧ (∃ n ∈ out.nodes, n.id = r.target)) ∧
    (∀ n ∈ out.nodes,
      GoodGender (identify_genders_coref svc.corefPredict text) n.id n.gender) := by
  have hmf := coref_gm_mf svc.corefPredict text
  cases htr : svc.transform text with
  | error e =>
    rw [create_eq_error htr] at h
    exact create_basic_graph_ok_props hmf h
  | ok odoc =>
    cases odoc with
    | none =>
      rw [create_eq_none htr] at h
      exact create_basic_graph_ok_props hmf h
    | some doc =>
      rw [create_eq_some htr] at h
      cases hs : serializeGraph (buildPrimaryGraph svc.llmPredict doc
          (identify_genders_coref svc.corefPredict text)) with
      | ok g =>
        rw [hs] at h
        have hg : g = out := by simpa using h
        subst hg
        exact ⟨serializeGraph_endpoints hs buildPrimaryGraph_closed,
          serializeGraph_nodesOk hs (buildPrimaryGraph_good hmf)⟩
      | error e =>
        rw [hs] at h
        exact create_basic_graph_ok_props hmf h

/-! ## The density backstop in detail -/

theorem chainPairs_preserve_any {Q : DiGraph → Prop}
    (hAdd : ∀ (G : DiGraph) (a b : String), Q G → Q (G.addEdge a b "RELATED_TO")) :
    ∀ (l : List String) {G : DiGraph}, Q G → Q (chainPairs G l) := by
  intro l
  induction l with
  | nil => intro G hG; simpa [chainPairs] using hG
  | cons a tail ih =>
    intro G hG
    cases tail with
    | nil => simpa [chainPairs] using hG
    | cons b rest =>
      simp only [chainPairs]
      refine ih ?_
      by_cases he : G.hasEdge a b = true
      · rw [if_pos he]; exact hG
      · rw [if_neg he]; exact hAdd G a b hG

/-- After the chaining loop, every consecutive pair has a direct edge. -/
theorem chainPairs_consecutive :
    ∀ (l : List String) (G : DiGraph) (p : String × String), p ∈ l.zip l.tail →
      (chainPairs G l).hasEdge p.1 p.2 = true := by
  intro l
  induction l with
  | nil => intro G p hp; simp at hp
  | cons a tail ih =>
    intro G p hp
    cases tail with
    | nil => simp at hp
    | cons b rest =>
      simp only [List.tail_cons, List.zip_cons_cons] at hp
      simp only [chainPairs]
      rcases List.mem_cons.mp hp with rfl | hp'
      · refine chainPairs_preserve_any
          (Q := fun G : DiGraph => G.hasEdge (a, b).1 (a, b).2 = true)
          (fun G a' b' h => hasEdge_addEdge h) (b :: rest) ?_
        by_cases he : G.hasEdge a b = true
        · rw [if_pos he]; exact he
        · rw [if_neg he]; exact hasEdge_addEdge_self
      · exact ih _ p hp'

/-- Edges whose key is not a remaining consecutive pair survive the loop. -/
theorem chainPairs_mem_edges :
    ∀ (l : List String) (G : DiGraph) (e : String × String × String),
      e ∈ G.edges → (∀ p ∈ l.zip l.tail, ¬(e.1 = p.1 ∧ e.2.1 = p.2)) →
      e ∈ (chainPairs G l).edges := by
  intro l
  induction l with
  | nil => intro G e he _; simpa [chainPairs] using he
  | cons a tail ih =>
    intro G e he hne
    cases tail with
    | nil => simpa [chainPairs] using he
    | cons b rest =>
      simp only [List.tail_cons, List.zip_cons_cons] at hne
      simp only [chainPairs]
      refine ih _ e ?_ ?_
      · by_cases hd : G.hasEdge a b = true
        · rw [if_pos hd]; exact he
        · rw [if_neg hd]
          exact mem_edges_addEdge_of_mem (hne (a, b) (by simp)) he
      · intro p hp
        exact hne p (List.mem_cons_of_mem _ hp)

/-- A consecutive pair with no direct edge gets a `RELATED_TO` edge. -/
theorem chainPairs_related :
    ∀ (l : List String), l.Nodup → ∀ (G : DiGraph) (p : String × String),
      p ∈ l.zip l.tail → G.hasEdge p.1 p.2 = false →
      (p.1, p.2, "RELATED_TO") ∈ (chainPairs G l).edges := by
  intro l
  induction l with
  | nil => intro _ G p hp _; simp at hp
  | cons a tail ih =>
    intro hnd G p hp hf
    cases tail with
    | nil => simp at hp
    | cons b rest =>
      simp only [List.tail_cons, List.zip_cons_cons] at hp
      simp only [chainPairs]
      have hna : a ∉ b :: rest := (List.nodup_cons.mp hnd).1
      rcases List.mem_cons.mp hp with rfl | hp'
      · rw [if_neg (by simp [hf])]
        refine chainPairs_mem_edges _ _ _ mem_edges_addEdge_self ?_
        intro q hq hkey
        have hq1 : q.1 ∈ b :: rest := (List.of_mem_zip hq).1
        have hqa : q.1 = a := (hkey.1 : a = q.1).symm
        exact hna (hqa ▸ hq1)
      · have hp1 : p.1 ∈ b :: rest := (List.of_mem_zip hp').1
        have hstep : ∀ G' : DiGraph,
            (if G.hasEdge a b = true then G else G.addEdge a b "RELATED_TO") = G' →
            G'.hasEdge p.1 p.2 = false := by
          intro G' hG'
          by_cases hd : G.hasEdge a b = true
          · rw [if_pos hd] at hG'; rw [← hG']; exact hf
          · rw [if_neg hd] at hG'
            rw [← hG']
            rw [hasEdge_addEdge_other (by
              intro hk
              exact hna (hk.1 ▸ hp1))]
            exact hf
        exact ih (List.nodup_cons.mp hnd).2 _ p hp' (hstep _ rfl)

theorem zip_tail_nodup : ∀ {l : List String}, l.Nodup → (l.zip l.tail).Nodup := by
  intro l
  induction l with
  | nil => intro _; simp
  | cons a tail ih =>
    intro h
    cases tail with
    | nil => simp
    | cons b rest =>
      simp only [List.tail_cons, List.zip_cons_cons]
      rw [List.nodup_cons]
      refine ⟨?_, ih (List.nodup_cons.mp h).2⟩
      intro hmem
      exact (List.nodup_cons.mp h).1 (List.of_mem_zip hmem).1

/-- After the chaining loop the graph has at least (length − 1) edges. -/
theorem chainPairs_count {l : List String} (hnd : l.Nodup) (G : DiGraph) :
    l.length ≤ (chainPairs G l).edges.length + 1 := by
  have hsub : l.zip l.tail ⊆
      (chainPairs G l).edges.map (fun e => (e.1, e.2.1)) := by
    intro p hp
    have hhe := chainPairs_consecutive l G p hp
    rcases hasEdge_iff.mp hhe with ⟨ty, hty⟩
    exact List.mem_map.mpr ⟨(p.1, p.2, ty), hty, by simp⟩
  have hnd' : (l.zip l.tail).Nodup := zip_tail_nodup hnd
  have hle := (List.subperm_of_subset hnd' hsub).length_le
  rw [List.length_map] at hle
  have hlen : (l.zip l.tail).length = l.length - 1 := by
    rw [List.length_zip, List.length_tail]
    exact Nat.min_eq_right (Nat.sub_le _ _)
  omega

/-! ## The claims -/

/-- C1: for every input string (including the empty string and strings
with no capitalized tokens) and for every behavior of the coreference,
graph-transformation, completion, and syntactic services — including ones
that raise — `create_graph_from_text` terminates and returns a well-shaped
graph (an `Except.ok` carrying a `GraphOut` with its `nodes` and
`relationships` lists) and never propagates an exception. -/
theorem claim_C1_totality (svc : Services) (text : String) :
    ∃ out : GraphOut, create_graph_from_text svc text = Except.ok out := by
  cases htr : svc.transform text with
  | error e =>
    rw [create_eq_error htr]
    exact create_basic_graph_total svc text _
  | ok odoc =>
    cases odoc with
    | none =>
      rw [create_eq_none htr]
      exact create_basic_graph_total svc text _
    | some doc =>
      rw [create_eq_some htr]
      cases hs : serializeGraph (buildPrimaryGraph svc.llmPredict doc
          (identify_genders_coref svc.corefPredict text)) with
      | ok g => exact ⟨g, rfl⟩
      | error e => exact create_basic_graph_total svc text _

/-- C2: every relationship of a graph returned by `create_graph_from_text`
— whichever extraction tier produced it and for every behavior of the
external services — has its `source` and its `target` equal to the `id` of
some entry of `nodes`. -/
theorem claim_C2_edge_endpoints (svc : Services) (text : String) (out : GraphOut)
    (h : create_graph_from_text svc text = Except.ok out) :
    ∀ r ∈ out.relationships,
      (∃ n ∈ out.nodes, n.id = r.source) ∧ (∃ n ∈ out.nodes, n.id = r.target) :=
  (create_ok_props h).1

def svcC2 : Services :=
  ⟨fun _ => .ok [], fun _ => .ok "male",
   fun _ => .ok (some ⟨[⟨"Alice", "Person"⟩, ⟨"Bob", "Person"⟩],
     [⟨"Alice", "Bob", "KNOWS"⟩]⟩),
   fun _ => .error "no spacy"⟩

def outC2 : GraphOut :=
  ⟨[⟨"Alice", "Person", "male"⟩, ⟨"Bob", "Person", "male"⟩],
   [⟨"Alice", "Bob", "KNOWS"⟩]⟩

theorem claim_C2_edge_endpoints_witness :
    (∃ n ∈ outC2.nodes, n.id = "Alice") ∧ (∃ n ∈ outC2.nodes, n.id = "Bob") :=
  claim_C2_edge_endpoints svcC2 "Alice knows Bob" outC2 (by rfl)
    ⟨"Alice", "Bob", "KNOWS"⟩ (by simp [outC2])

/-- C3: when the entity is a key of the gender map, `identify_gender_llm`
returns the map's value, for every completion-service behavior (two
arbitrary services give the same answer); consequently, in the graph
returned by `create_graph_from_text`, a node whose id is a key of the
coreference gender map carries that map's gender. -/
theorem claim_C3_coref_precedence :
    (∀ (llm llm2 : String → Except String String) (e t g : String)
        (gm : GenderMap), lookupGM gm e = some g →
        identify_gender_llm llm e t gm = g ∧
        identify_gender_llm llm e t gm = identify_gender_llm llm2 e t gm) ∧
    (∀ (svc : Services) (text : String) (out : GraphOut) (n : NodeOut)
        (g : String), create_graph_from_text svc text = Except.ok out →
        n ∈ out.nodes →
        lookupGM (identify_genders_coref svc.corefPredict text) n.id = some g →
        n.gender = g) := by
  constructor
  · intro llm llm2 e t g gm h
    exact ⟨igl_of_lookup h, by rw [igl_of_lookup h, igl_of_lookup h]⟩
  · intro svc text out n g h hn hl
    exact ((create_ok_props h).2 n hn).1 g hl

def svcC3 : Services :=
  ⟨fun _ => .ok [["Sita", "his", "he"]], fun _ => .ok "female",
   fun _ => .ok (some ⟨[⟨"Sita", "Person"⟩], []⟩), fun _ => .error "x"⟩

def outC3 : GraphOut := ⟨[⟨"Sita", "Person", "male"⟩], []⟩

theorem claim_C3_coref_precedence_witness :
    (identify_gender_llm (fun _ => Except.ok "female") "Sita" "Person"
      [("Sita", "male")] = "male" ∧
     identify_gender_llm (fun _ => Except.ok "female") "Sita" "Person"
      [("Sita", "male")] =
     identify_gender_llm (fun _ => Except.error "down") "Sita" "Person"
      [("Sita", "male")]) ∧
    (NodeOut.mk "Sita" "Person" "male").gender = "male" :=
  ⟨claim_C3_coref_precedence.1 (fun _ => Except.ok "female")
      (fun _ => Except.error "down") "Sita" "Person" "male"
      [("Sita", "male")] (by rfl),
   claim_C3_coref_precedence.2 svcC3 "Sita is his teacher" outC3
      ⟨"Sita", "Person", "male"⟩ "male" (by rfl) (by simp [outC3]) (by rfl)⟩

/-- C4: every node of a graph returned by `create_graph_from_text` has a
gender in the closed vocabulary, for every input text and every
completion-service response string; and on the completion path the
response is lower-cased, trimmed and coerced to `unknown` when outside the
three-element vocabulary. -/
theorem claim_C4_gender_vocab :
    (∀ (svc : Services) (text : String) (out : GraphOut),
        create_graph_from_text svc text = Except.ok out →
        ∀ n ∈ out.nodes,
          n.gender = "male" ∨ n.gender = "female" ∨ n.gender = "unknown") ∧
    (∀ (resp e t : String) (gm : GenderMap),
        lookupGM gm e = none → lowerStr t = "person" →
        identify_gender_llm (fun _ => Except.ok resp) e t gm =
          (if genderVocab.contains (trimStr (lowerStr resp)) then
            trimStr (lowerStr resp) else "unknown")) := by
  constructor
  · intro svc text out h n hn
    exact ((create_ok_props h).2 n hn).2
  · intro resp e t gm hl ht
    unfold identify_gender_llm
    rw [hl]
    simp [ht]

def svcC4 : Services :=
  ⟨fun _ => .ok [], fun _ => .ok "Male!",
   fun _ => .ok (some ⟨[⟨"X", "Person"⟩], []⟩), fun _ => .error "x"⟩

def outC4 : GraphOut := ⟨[⟨"X", "Person", "unknown"⟩], []⟩

theorem claim_C4_gender_vocab_witness :
    ((NodeOut.mk "X" "Person" "unknown").gender = "male" ∨
     (NodeOut.mk "X" "Person" "unknown").gender = "female" ∨
     (NodeOut.mk "X" "Person" "unknown").gender = "unknown") ∧
    identify_gender_llm (fun _ => Except.ok "Male!") "X" "Person" [] = "unknown" := by
  constructor
  · exact claim_C4_gender_vocab.1 svcC4 "X did something" outC4 (by rfl)
      ⟨"X", "Person", "unknown"⟩ (by simp [outC4])
  · have h := claim_C4_gender_vocab.2 "Male!" "X" "Person" [] (by rfl) (by rfl)
    rw [h]
    rfl

/-- C5: for an entity absent from the gender map and an entity type whose
lower-casing is not `person`, `identify_gender_llm` returns `unknown`
without consulting the completion service: any two service behaviors —
including one that raises on every call — give the same result. -/
theorem claim_C5_nonperson_shortcircuit
    (llm llm2 : String → Except String String) (e t : String) (gm : GenderMap)
    (hl : lookupGM gm e = none) (ht : lowerStr t ≠ "person") :
    identify_gender_llm llm e t gm = "unknown" ∧
    identify_gender_llm llm e t gm = identify_gender_llm llm2 e t gm := by
  have h1 : ∀ f : String → Except String String,
      identify_gender_llm f e t gm = "unknown" := by
    intro f
    unfold identify_gender_llm
    rw [hl, if_pos ht]
  exact ⟨h1 llm, by rw [h1 llm, h1 llm2]⟩

theorem claim_C5_nonperson_shortcircuit_witness :
    identify_gender_llm (fun _ => Except.ok "male") "Paris" "Location" [] =
      "unknown" ∧
    identify_gender_llm (fun _ => Except.ok "male") "Paris" "Location" [] =
      identify_gender_llm (fun _ => Except.error "service down") "Paris"
        "Location" [] :=
  claim_C5_nonperson_shortcircuit _ _ "Paris" "Location" [] (by rfl) (by decide)

/-- C6: whenever the dependency pass left fewer edges than (entity count −
1), the backstop connects every consecutive entity pair directly, adds a
`RELATED_TO` edge for each pair that had no direct edge, and the resulting
graph holds at least (entity count − 1) relationships. -/
theorem claim_C6_density_backstop (entities : List String) (G : DiGraph)
    (hnd : entities.Nodup)
    (hfire : (G.edges.length : Int) < (entities.length : Int) - 1) :
    (∀ p ∈ entities.zip entities.tail,
      (addBackstop entities G).hasEdge p.1 p.2 = true ∧
      (G.hasEdge p.1 p.2 = false →
        (p.1, p.2, "RELATED_TO") ∈ (addBackstop entities G).edges)) ∧
    entities.length ≤ (addBackstop entities G).edges.length + 1 := by
  have hb : addBackstop entities G = chainPairs G entities := by
    unfold addBackstop
    rw [if_pos hfire]
  rw [hb]
  exact ⟨fun p hp => ⟨chainPairs_consecutive _ _ p hp,
    fun hf => chainPairs_related _ hnd _ p hp hf⟩, chainPairs_count hnd G⟩

theorem claim_C6_density_backstop_witness :
    ((addBackstop ["A", "B", "C"] DiGraph.empty).hasEdge "A" "B" = true ∧
     (DiGraph.empty.hasEdge "A" "B" = false →
       ("A", "B", "RELATED_TO") ∈ (addBackstop ["A", "B", "C"] DiGraph.empty).edges)) ∧
    (["A", "B", "C"] : List String).length ≤
      (addBackstop ["A", "B", "C"] DiGraph.empty).edges.length + 1 := by
  have h := claim_C6_density_backstop ["A", "B", "C"] DiGraph.empty
    (by decide) (by decide)
  exact ⟨h.1 ("A", "B") (by decide), h.2⟩

/-- C7: the syntactic (spaCy) extraction path never outputs a self-loop:
every relationship of a graph it returns has distinct source and target,
both for the dependency-derived `REL_` edges and for the `RELATED_TO`
backstop edges. -/
theorem claim_C7_no_self_loops (svc : Services) (text : String)
    (gm : GenderMap) (out : GraphOut)
    (h : basicGraphBody svc text gm = Except.ok out) :
    ∀ r ∈ out.relationships, r.source ≠ r.target := by
  cases hsp : svc.spacyParse text with
  | error e =>
    simp only [basicGraphBody, hsp] at h
    exact absurd h (by simp)
  | ok doc =>
    rw [basicGraphBody_eq hsp] at h
    exact serializeGraph_distinct h basicGraphOf_distinct

def svcC7 : Services :=
  ⟨fun _ => .ok [], fun _ => .error "down", fun _ => .error "down",
   fun _ => .ok ⟨[⟨"Alice", 0, 5, "PERSON"⟩, ⟨"Bob", 10, 13, "PERSON"⟩], []⟩⟩

def outC7 : GraphOut :=
  ⟨[⟨"Alice", "PERSON", "unknown"⟩, ⟨"Bob", "PERSON", "unknown"⟩],
   [⟨"Alice", "Bob", "RELATED_TO"⟩]⟩

theorem claim_C7_no_self_loops_witness : ("Alice" : String) ≠ "Bob" :=
  claim_C7_no_self_loops svcC7 "Alice met Bob" [] outC7 (by rfl)
    ⟨"Alice", "Bob", "RELATED_TO"⟩ (by simp [outC7])

/-- C8: `identify_genders_coref` never propagates an exception (it is a
total function of the oracle), and whenever the coreference engine's
predict/cluster call raises, it returns the empty map. -/
theorem claim_C8_coref_failure_empty
    (coref : String → Except String (List (List String))) (text e : String)
    (h : coref text = Except.error e) :
    identify_genders_coref coref text = [] := by
  unfold identify_genders_coref
  rw [h]

theorem claim_C8_coref_failure_empty_witness :
    identify_genders_coref (fun _ => Except.error "engine down")
      "Kiran met Sita" = [] :=
  claim_C8_coref_failure_empty (fun _ => Except.error "engine down")
    "Kiran met Sita" "engine down" rfl

/-- C9: the translation prompt embeds the node metadata serialized as
`id (Type: t, Gender: g)` joined by `, ` and the relationship metadata
serialized as `source --[type]--> target` joined by `, `, in the order the
nodes and relationships appear in the input graph, inside the fixed
instruction text. -/
theorem claim_C9_prompt_format (sample_text : String) (kg : GraphOut)
    (target_lang : String) :
    (generate_translation_prompt sample_text kg target_lang).role = "user" ∧
    (generate_translation_prompt sample_text kg target_lang).content =
      "Translate to " ++ target_lang ++
      " (use native script) using only the gender and relationship context " ++
      "of entities from metadata; reply with only the translated text: " ++
      sample_text ++ " " ++ "Meta data: " ++
      ("Knowledge Graph Structure: Nodes: " ++
        String.intercalate ", " (kg.nodes.map (fun n =>
          n.id ++ " (Type: " ++ n.type ++ ", Gender: " ++ n.gender ++ ")")) ++
        ". Relationships: " ++
        String.intercalate ", " (kg.relationships.map (fun r =>
          r.source ++ " --[" ++ r.type ++ "]--> " ++ r.target)) ++ ".") ++
      " " :=
  ⟨rfl, rfl⟩

/-- C10: every entry of the map returned by `identify_genders_coref` — for
every input text and every cluster output of the coreference engine — has
value `male` or `female` (never `unknown`), a key whose first character is
upper-case, and a key whose lower-casing is in neither pronoun set, so no
pronoun ever appears as a key. -/
theorem claim_C10_gender_map_entries
    (coref : String → Except String (List (List String))) (text : String) :
    ∀ p ∈ identify_genders_coref coref text,
      (p.2 = "male" ∨ p.2 = "female") ∧
      headIsUpper p.1 = true ∧
      malePronouns.contains (lowerStr p.1) = false ∧
      femalePronouns.contains (lowerStr p.1) = false :=
  fun p hp => coref_gm_inv coref text p hp

theorem claim_C10_gender_map_entries_witness :
    (("male" : String) = "male" ∨ ("male" : String) = "female") ∧
    headIsUpper "Sita" = true ∧
    malePronouns.contains (lowerStr "Sita") = false ∧
    femalePronouns.contains (lowerStr "Sita") = false :=
  claim_C10_gender_map_entries
    (fun _ => Except.ok [["Sita", "his", "he"]]) "anything"
    ("Sita", "male") (by decide)
